import Mathlib

/-
  Verification development for the aidocswriter extension
  (src/src/extension.ts, with the earlier variant in src/unnamed/part_000).

  The buffer of the editor is modelled as a list of lines (`List String`,
  no line contains a newline character); the full document text joins the
  lines with a single newline, matching a document whose end-of-line
  sequence is LF.  JavaScript string primitives (trim, endsWith, substring,
  lastIndexOf, regular-expression tests) are modelled character-exactly for
  ASCII text over `List Char`.
-/

namespace AidocsWriter

/-- JavaScript whitespace (`\s`), restricted to the ASCII range: space, tab,
newline, carriage return, vertical tab, form feed. -/
def jsWs (c : Char) : Bool :=
  c = ' ' || c = '\t' || c = '\n' || c = '\r' || c = '\x0b' || c = '\x0c'

/-- JS `String.prototype.trim` on a character list: drop whitespace from
both ends. -/
def jsTrimL (l : List Char) : List Char :=
  ((l.dropWhile jsWs).reverse.dropWhile jsWs).reverse

/-- JS `String.prototype.trim` on a `String`. -/
def jsTrimS (s : String) : String :=
  String.mk (jsTrimL s.data)

/-- JS `s.endsWith(c)` for a one-character suffix: the last character is `c`. -/
def strEndsWith (s : String) (c : Char) : Bool :=
  s.data.getLast? = some c

/-- Does the pattern occur as a prefix of the text? -/
def isPrefixL : List Char → List Char → Bool
  | [], _ => true
  | _ :: _, [] => false
  | k :: ks, c :: cs => k = c && isPrefixL ks cs

/-- Match a literal keyword at the head of the text, returning the remaining
text on success (the backbone of the regular-expression models). -/
def matchKw : List Char → List Char → Option (List Char)
  | [], l => some l
  | _ :: _, [] => none
  | k :: ks, c :: cs => if k = c then matchKw ks cs else none

/-- Case-insensitive variant of `matchKw` (for the `/i` flag). -/
def matchKwCI : List Char → List Char → Option (List Char)
  | [], l => some l
  | _ :: _, [] => none
  | k :: ks, c :: cs => if k.toLower = c.toLower then matchKwCI ks cs else none

/-- Does the pattern occur as a substring of the text? -/
def hasSub (pat : List Char) : List Char → Bool
  | [] => isPrefixL pat []
  | c :: cs => isPrefixL pat (c :: cs) || hasSub pat cs

/-- JS `text.lastIndexOf(pat)`: character index of the last occurrence of
`pat` in `text`, or `none` (JS `-1`) when absent.  `pat` is assumed
non-empty, as at every call site. -/
def lastIdxOf (pat : List Char) : List Char → Option Nat
  | [] => if isPrefixL pat [] then some 0 else none
  | c :: cs =>
    match lastIdxOf pat cs with
    | some i => some (i + 1)
    | none => if isPrefixL pat (c :: cs) then some 0 else none

/-- Characters `[i, j)` of a list (the substring primitive). -/
def sliceL (l : List Char) (i j : Nat) : List Char :=
  (l.drop i).take (j - i)

/-- Characters `[i, j)` of a string. -/
def sliceStr (s : String) (i j : Nat) : String :=
  String.mk (sliceL s.data i j)

/-- JS `s.substring(a, b)`: both indices are clamped to `[0, length]` and
swapped when given in reverse order. -/
def jsSubstringL (l : List Char) (a b : Nat) : List Char :=
  let a2 := min a l.length
  let b2 := min b l.length
  sliceL l (min a2 b2) (max a2 b2)

/-- JS `s.includes(sub)`. -/
def strIncludes (s sub : String) : Bool :=
  hasSub sub.data s.data

/-- `doc.lineAt(i).text`: the text of line `i` (out-of-range reads yield the
empty line; the theorems only evaluate it at valid indices). -/
def lineAt (lines : List String) (i : Nat) : String :=
  lines.getD i ""

/-- `doc.getText()`: the full buffer text, lines joined by a newline. -/
def getText : List String → String
  | [] => ""
  | [l] => l
  | l :: l2 :: ls => l ++ "\n" ++ getText (l2 :: ls)

/-- The leading-whitespace prefix of a line — the JS match `/^(\s*)/[1]`. -/
def leadingWs (s : String) : String :=
  String.mk (s.data.takeWhile jsWs)

/-- `TextLine.isEmptyOrWhitespace`: the line holds only whitespace. -/
def isEmptyOrWhitespace (s : String) : Bool :=
  s.data.all jsWs

/-- `TextLine.firstNonWhitespaceCharacterIndex`: index of the first
non-whitespace character; the line's length when it is all whitespace. -/
def firstNonWsIdx (s : String) : Nat :=
  (s.data.takeWhile jsWs).length

/-- Model of the JS regular-expression test
`/^\s*((async\s)?def|class)\s+/.test(line)` — the Python
`definitionKeywords` pattern of `extension.ts`.  `^\s*` consumes the whole
leading-whitespace run; then either `def` followed by one whitespace
character, or `async`, exactly one whitespace character, `def` and one
whitespace character, or `class` followed by one whitespace character. -/
def pythonDefMatch (s : String) : Bool :=
  let cs := s.data.dropWhile jsWs
  (match matchKw "def".data cs with
   | some (c :: _) => jsWs c
   | _ => false) ||
  (match matchKw "async".data cs with
   | some (c :: rest) =>
     jsWs c &&
       (match matchKw "def".data rest with
        | some (c2 :: _) => jsWs c2
        | _ => false)
   | _ => false) ||
  (match matchKw "class".data cs with
   | some (c :: _) => jsWs c
   | _ => false)

/-- A PowerShell identifier character: `[a-zA-Z0-9_-]`. -/
def psNameChar (c : Char) : Bool :=
  ('a' ≤ c && c ≤ 'z') || ('A' ≤ c && c ≤ 'Z') || ('0' ≤ c && c ≤ '9') ||
    c = '_' || c = '-'

/-- Model of the JS test
`/^\s*(function|filter|workflow|configuration)\s+([a-zA-Z0-9_-]+)(?:\s*\(.*?\))?\s*/i.test(line)`
— the PowerShell `definitionKeywords` pattern.  A test succeeds exactly when
after the leading whitespace one of the keywords appears (case-insensitive),
followed by at least one whitespace character whose run is followed by an
identifier character; the optional parameter list and trailing `\s*` can
always match the empty string and never make the test fail. -/
def powershellDefMatch (s : String) : Bool :=
  let cs := s.data.dropWhile jsWs
  ["function", "filter", "workflow", "configuration"].any fun kw =>
    match matchKwCI kw.data cs with
    | some (c :: rest) =>
      jsWs c &&
        (match (c :: rest).dropWhile jsWs with
         | c2 :: _ => psNameChar c2
         | [] => false)
    | _ => false

/-- Model of the JS test `/^\s*((async)?\s*def|class)\s+/.test(line)` — the
Python pattern of the earlier variant (src/unnamed/part_000).  Here `async`
may be followed by any number of whitespace characters (including none)
before `def`. -/
def pythonDefMatchV0 (s : String) : Bool :=
  let cs := s.data.dropWhile jsWs
  (match matchKw "def".data cs with
   | some (c :: _) => jsWs c
   | _ => false) ||
  (match matchKw "async".data cs with
   | some rest =>
     (match matchKw "def".data (rest.dropWhile jsWs) with
      | some (c2 :: _) => jsWs c2
      | _ => false)
   | _ => false) ||
  (match matchKw "class".data cs with
   | some (c :: _) => jsWs c
   | _ => false)

/-- `promptSettings` of a `LanguageConfig`. -/
structure PromptSettings where
  subject : String
  style : String
  rules : List String
  emptyCodeResponse : String
deriving DecidableEq

/-- `commentStyle` of a `LanguageConfig` (`linePref` models the optional
`linePrefix` field). -/
structure CommentStyle where
  start : String
  end_ : String
  linePref : Option String
deriving DecidableEq

/-- A language configuration, as in the `LanguageConfig` interface; the
regular expression `definitionKeywords` is modelled by its test function. -/
structure LanguageConfig where
  languageIds : List String
  definitionKeywords : String → Bool
  commentStyle : CommentStyle
  promptSettings : PromptSettings

/-- The `'python'` entry of `LANGUAGE_CONFIGS`. -/
def pythonConfig : LanguageConfig where
  languageIds := ["python"]
  definitionKeywords := pythonDefMatch
  commentStyle := { start := "\"\"\"", end_ := "\"\"\"", linePref := none }
  promptSettings :=
    { subject := "function or class"
      style := "Google's style for Python docstrings"
      rules := ["Use triple quotes.",
                "Do not exceed 88 characters per line, including indentation."]
      emptyCodeResponse := "Generic __init__.py." }

/-- The `'powershell'` entry of `LANGUAGE_CONFIGS`. -/
def powershellConfig : LanguageConfig where
  languageIds := ["powershell"]
  definitionKeywords := powershellDefMatch
  commentStyle := { start := "<#", end_ := "#>", linePref := some "  " }
  promptSettings :=
    { subject := "function"
      style := "PowerShell comment-based help"
      rules := ["Use <# and #> block comment.",
                "Include .SYNOPSIS, .DESCRIPTION, .PARAMETER, .EXAMPLE, and .NOTES sections.",
                "Block MUST have ONLY one <#, at the start, and ONLY one #>, at the end."]
      emptyCodeResponse := ".SYNOPSIS\n  A brief summary of the function." }

/-- The registry `LANGUAGE_CONFIGS`, keyed by representative language id. -/
def LANGUAGE_CONFIGS : List (String × LanguageConfig) :=
  [("python", pythonConfig), ("powershell", powershellConfig)]

/-- An editor position: zero-based line and column. -/
structure Pos where
  line : Nat
  char : Nat
deriving DecidableEq

/-- Position order (line-major), as `Position.isBeforeOrEqual`. -/
def posLeb (a b : Pos) : Bool :=
  decide (a.line < b.line ∨ (a.line = b.line ∧ a.char ≤ b.char))

/-- An editor selection: anchor and active (cursor) ends. -/
structure Sel where
  anchor : Pos
  active : Pos
deriving DecidableEq

/-- `selection.isEmpty`. -/
def Sel.isEmpty (s : Sel) : Bool :=
  decide (s.anchor = s.active)

/-- `selection.start`: the earlier of the two ends. -/
def Sel.start (s : Sel) : Pos :=
  if posLeb s.anchor s.active then s.anchor else s.active

/-- `selection.end`: the later of the two ends. -/
def Sel.end_ (s : Sel) : Pos :=
  if posLeb s.anchor s.active then s.active else s.anchor

/-- The `CodeContext` record produced by the Region Detector; `range` keeps
the pair (start position, end position). -/
structure CodeContext where
  code : String
  isModuleLevel : Bool
  range : Pos × Pos
  indentation : String
  definitionLine : Nat
deriving DecidableEq

/-- The strict-walk abort test of `getCodeToDocument` (extension.ts line
332): the visited line does not end with `','`, does not end with `':'`,
and is not blank (`lineText.trim().length > 0`).  Note the two trailing
tokens are the same for every language profile. -/
def lineBad (t : String) : Bool :=
  !(strEndsWith t ',') && !(strEndsWith t ':') && !(jsTrimS t == "")

/-- The upward walk of `getCodeToDocument` (extension.ts lines 327-336),
starting at line `i`: stop at the first line matching `definitionKeywords`;
abort with an error on a line failing the strict-walk test; return `none`
after passing line 0. -/
def findDefUp (p : LanguageConfig) (lines : List String) : Nat → Except String (Option Nat)
  | 0 =>
    if p.definitionKeywords (lineAt lines 0) then Except.ok (some 0)
    else if lineBad (lineAt lines 0) then Except.error "Could not find a definition."
    else Except.ok none
  | i + 1 =>
    if p.definitionKeywords (lineAt lines (i + 1)) then Except.ok (some (i + 1))
    else if lineBad (lineAt lines (i + 1)) then Except.error "Could not find a definition."
    else findDefUp p lines i

/-- The upward walk of the earlier variant (part_000 lines 193-199): same
walk with the V0 Python pattern and no strict-walk abort. -/
def findDefUpV0 (lines : List String) : Nat → Option Nat
  | 0 => if pythonDefMatchV0 (lineAt lines 0) then some 0 else none
  | i + 1 =>
    if pythonDefMatchV0 (lineAt lines (i + 1)) then some (i + 1)
    else findDefUpV0 lines i

/-- One fuel-indexed pass of the downward walk (extension.ts lines 349-356):
advance `e` while it names a line that is blank or more deeply indented than
the definition.  `lines.length` steps of fuel always suffice because each
step increments `e` and the walk stops once `e` reaches `lines.length`. -/
def findBlockEndAux (lines : List String) (defIndent : Nat) : Nat → Nat → Nat
  | 0, e => e
  | fuel + 1, e =>
    if e < lines.length then
      if !(isEmptyOrWhitespace (lineAt lines e)) && firstNonWsIdx (lineAt lines e) ≤ defIndent then e
      else findBlockEndAux lines defIndent fuel (e + 1)
    else e

/-- The downward walk: first line at or past `e0` that is non-blank and
indented at most `defIndent`, or `lines.length`. -/
def findBlockEnd (lines : List String) (defIndent : Nat) (e0 : Nat) : Nat :=
  findBlockEndAux lines defIndent lines.length e0

/-- `doc.getText(new Range(s, 0, e, 0))` for `s ≤ e ≤ lines.length`: the
text of lines `s .. e-1`, each followed by a newline; when `e` equals the
line count the end position is clamped to the end of the last line, so the
final newline is not produced. -/
def getTextRange (lines : List String) (s e : Nat) : String :=
  if e ≥ lines.length then getText (lines.drop s)
  else String.join (((lines.drop s).take (e - s)).map (fun l => l ++ "\n"))

/-- `doc.getText` from the buffer start to position `(k, c)`. -/
def extractPrefix : List String → Nat → Nat → String
  | [], _, _ => ""
  | l :: _, 0, c => sliceStr l 0 c
  | l :: ls, k + 1, c => l ++ "\n" ++ extractPrefix ls k c

/-- `doc.getText(selection)` for positions `p ≤ q` inside the buffer: the
exact text between the two positions. -/
def extractRange : List String → Pos → Pos → String
  | [], _, _ => ""
  | l :: ls, p, q =>
    match p.line, q.line with
    | 0, 0 => sliceStr l p.char q.char
    | 0, ql + 1 => sliceStr l p.char l.length ++ "\n" ++ extractPrefix ls ql q.char
    | _ + 1, 0 => ""
    | pl + 1, ql + 1 => extractRange ls ⟨pl, p.char⟩ ⟨ql, q.char⟩

/-- `getCodeToDocument` (extension.ts lines 291-370).  Case 1: empty
selection with the cursor at (0,0) — module level, the whole text.  Case 2:
a non-empty selection — exactly the selected text.  Case 3: empty selection
elsewhere — strict upward walk to a definition line, then downward walk to
the end of its block.  The thrown `Error` is modelled as `Except.error`. -/
def getCodeToDocument (p : LanguageConfig) (lines : List String) (sel : Sel) :
    Except String (Option CodeContext) :=
  if sel.anchor = sel.active ∧ sel.active.line = 0 ∧ sel.active.char = 0 then
    Except.ok (some
      { code := getText lines
        isModuleLevel := true
        range := (⟨0, 0⟩, ⟨lines.length - 1, (lineAt lines (lines.length - 1)).length⟩)
        indentation := ""
        definitionLine := 0 })
  else if ¬(sel.anchor = sel.active) then
    Except.ok (some
      { code := extractRange lines (Sel.start sel) (Sel.end_ sel)
        isModuleLevel := false
        range := (Sel.start sel, Sel.end_ sel)
        indentation := leadingWs (lineAt lines (Sel.start sel).line)
        definitionLine := (Sel.start sel).line })
  else
    match findDefUp p lines sel.active.line with
    | Except.error e => Except.error e
    | Except.ok none => Except.ok none
    | Except.ok (some d) =>
      let defLine := lineAt lines d
      let defIndent := firstNonWsIdx defLine
      let e := findBlockEnd lines defIndent (d + 1)
      Except.ok (some
        { code := getTextRange lines d e
          isModuleLevel := false
          range := (⟨d, 0⟩, ⟨e, 0⟩)
          indentation := leadingWs defLine
          definitionLine := d })

/-- `getCodeToDocument` of the earlier variant (part_000 lines 158-231):
identical except that the upward walk uses the V0 Python pattern and never
aborts, so the function returns an `Option` instead of throwing. -/
def getCodeToDocumentV0 (lines : List String) (sel : Sel) : Option CodeContext :=
  if sel.anchor = sel.active ∧ sel.active.line = 0 ∧ sel.active.char = 0 then
    some
      { code := getText lines
        isModuleLevel := true
        range := (⟨0, 0⟩, ⟨lines.length - 1, (lineAt lines (lines.length - 1)).length⟩)
        indentation := ""
        definitionLine := 0 }
  else if ¬(sel.anchor = sel.active) then
    some
      { code := extractRange lines (Sel.start sel) (Sel.end_ sel)
        isModuleLevel := false
        range := (Sel.start sel, Sel.end_ sel)
        indentation := leadingWs (lineAt lines (Sel.start sel).line)
        definitionLine := (Sel.start sel).line }
  else
    match findDefUpV0 lines sel.active.line with
    | none => none
    | some d =>
      let defLine := lineAt lines d
      let defIndent := firstNonWsIdx defLine
      let e := findBlockEnd lines defIndent (d + 1)
      some
        { code := getTextRange lines d e
          isModuleLevel := false
          range := (⟨d, 0⟩, ⟨e, 0⟩)
          indentation := leadingWs defLine
          definitionLine := d }

/-- Split a character list at every newline character. -/
def splitNl : List Char → List (List Char)
  | [] => [[]]
  | c :: cs =>
    let rest := splitNl cs
    if c = '\n' then [] :: rest
    else
      match rest with
      | [] => [[c]]
      | h :: t => (c :: h) :: t

/-- JS `docstring.split(/\r?\n/)`: split on newlines, a carriage return
directly before a newline belonging to the separator. -/
def splitLinesJS (s : String) : List String :=
  (splitNl s.data).map fun l =>
    match l.getLast? with
    | some '\r' => String.mk l.dropLast
    | _ => String.mk l

/-- One fuel-indexed pass of the signature-end walk (extension.ts lines
391-405): advance while the current line does not contain the marker and
the next line exists.  `lines.length` steps of fuel always suffice. -/
def findSigEndAux (lines : List String) (marker : String) : Nat → Nat → Nat
  | 0, i => i
  | fuel + 1, i =>
    if i < lines.length - 1 && !(strIncludes (lineAt lines i) marker) then
      findSigEndAux lines marker fuel (i + 1)
    else i

/-- The signature-end line: walk downward from the definition line until a
line containing the marker (`':'` for Python, `'{'` for PowerShell). -/
def findSigEnd (lines : List String) (marker : String) (i0 : Nat) : Nat :=
  findSigEndAux lines marker lines.length i0

/-- Character offset of the start of line `k` in the joined text. -/
def lineStartOff : List String → Nat → Nat
  | [], _ => 0
  | _, 0 => 0
  | l :: ls, k + 1 => l.length + 1 + lineStartOff ls k

/-- Character offset of position `(k, 0)`; a line index at or past the end
of the buffer is clamped to the end of the text, as the editor clamps an
out-of-range `Position`. -/
def posOffset (lines : List String) (k : Nat) : Nat :=
  if k < lines.length then lineStartOff lines k else (getText lines).length

/-- `editBuilder.insert(pos, s)`: splice `s` into the text at offset `i`. -/
def insertAt (t : String) (i : Nat) (s : String) : String :=
  String.mk (t.data.take i ++ s.data ++ t.data.drop i)

/-- The line index at which `insertDocstring` (extension.ts lines 378-422)
inserts: module level — line 1 when line 0 is a shebang, else line 0;
otherwise the line after the signature end. -/
def insertLineOf (lines : List String) (ctx : CodeContext) (p : LanguageConfig) : Nat :=
  if ctx.isModuleLevel then
    if isPrefixL "#!".data (lineAt lines 0).data then 1 else 0
  else
    let sigEnd :=
      if p.languageIds.contains "python" then findSigEnd lines ":" ctx.definitionLine
      else if p.languageIds.contains "powershell" then findSigEnd lines "\x7b" ctx.definitionLine
      else ctx.definitionLine
    sigEnd + 1

/-- The text block that `insertDocstring` inserts.  Module level:
`start\n docstring \n end\n\n` with no indentation.  Otherwise the body
lines are re-indented with the definition's indentation plus four spaces
and the profile's optional per-line prefix, blank lines staying empty, and
wrapped in indented delimiter lines followed by a blank line. -/
def insertionText (docstring : String) (ctx : CodeContext)
    (p : LanguageConfig) : String :=
  if ctx.isModuleLevel then
    p.commentStyle.start ++ "\n" ++ docstring ++ "\n" ++ p.commentStyle.end_ ++ "\n\n"
  else
    let bodyIndent := ctx.indentation ++ "    "
    let pref := (CommentStyle.linePref p.commentStyle).getD ""
    bodyIndent ++ p.commentStyle.start ++ "\n" ++
      getText
        ((splitLinesJS docstring).map fun line =>
          if jsTrimS line = "" then "" else bodyIndent ++ pref ++ line) ++
      "\n" ++ bodyIndent ++ p.commentStyle.end_ ++ "\n\n"

/-- `insertDocstring`: the buffer text after the single insertion. -/
def insertDocstringText (lines : List String) (docstring : String) (ctx : CodeContext)
    (p : LanguageConfig) : String :=
  insertAt (getText lines) (posOffset lines (insertLineOf lines ctx p))
    (insertionText docstring ctx p)

/-- `buildPrompt` (extension.ts lines 430-446). -/
def buildPrompt (code : String) (isModuleLevel : Bool) (p : LanguageConfig) : String :=
  let subject := if isModuleLevel then "module" else p.promptSettings.subject
  let rules := String.intercalate "\n" (p.promptSettings.rules.map (fun r => "- " ++ r))
  "Write a " ++ p.languageIds.headD "" ++ " docstring for the following " ++ subject ++
    ".\n- Use " ++ p.promptSettings.style ++ ".\n" ++ rules ++ "\n\n" ++
    (if isModuleLevel then "Module" else "Function/class") ++ " code:\n" ++ code ++
    "\n\n- If there is no code provided above, the docstring content MUST be \x27" ++
    p.promptSettings.emptyCodeResponse ++
    "\x27.\n\nOutput only the docstring content, not including the comment markers. CRITICALLY IMPORTANT: Do NOT repeat the original code in your response."

/-- One fence match of the global replace
`replace(/```(?:python|powershell)\s*|```/g, '')` at the head of the text:
three backticks, optionally followed by a language tag and a whitespace
run.  Returns the remaining text after the match. -/
def fenceMatch (l : List Char) : Option (List Char) :=
  match matchKw "```".data l with
  | none => none
  | some rest =>
    match matchKw "python".data rest with
    | some r => some (r.dropWhile jsWs)
    | none =>
      match matchKw "powershell".data rest with
      | some r => some (r.dropWhile jsWs)
      | none => some rest

/-- Fuel-indexed left-to-right global replace of the fence pattern by the
empty string.  Each step consumes at least one character, so fuel equal to
the length of the text always suffices. -/
def stripFencesAux : Nat → List Char → List Char
  | 0, l => l
  | _ + 1, [] => []
  | fuel + 1, c :: cs =>
    match fenceMatch (c :: cs) with
    | some r => stripFencesAux fuel r
    | none => c :: stripFencesAux fuel cs

/-- The global fence replace of `callGeminiAPI` (extension.ts line 485). -/
def stripFences (l : List Char) : List Char :=
  stripFencesAux l.length l

/-- Cleanup step 1: strip markdown fences, then trim. -/
def cleanStep1 (l : List Char) : List Char :=
  jsTrimL (stripFences l)

/-- Cleanup step 2 (extension.ts lines 487-489): when the text both starts
and ends with `\"\"\"`, drop that outer pair via `substring(3, length - 3)`
(JS substring clamps and swaps its indices) and trim. -/
def cleanStep2 (l : List Char) : List Char :=
  if isPrefixL "\"\"\"".data l && isPrefixL "\"\"\"".data.reverse l.reverse then
    jsTrimL (jsSubstringL l 3 (l.length - 3))
  else l

/-- Cleanup step 3 (extension.ts lines 493-495): strip a leading `<#` and
trim. -/
def cleanStep3 (l : List Char) : List Char :=
  if isPrefixL "<#".data l then jsTrimL (l.drop 2) else l

/-- Cleanup step 4 (extension.ts lines 499-502): truncate at the last
occurrence of `#>` and trim; unchanged when `#>` does not occur. -/
def cleanStep4 (l : List Char) : List Char :=
  match lastIdxOf "#>".data l with
  | some i => jsTrimL (l.take i)
  | none => l

/-- Cleanup steps 1-3 only (the text in which step 4 looks for `#>`). -/
def cleanSteps123 (s : String) : String :=
  String.mk (cleanStep3 (cleanStep2 (cleanStep1 s.data)))

/-- The full cleanup transform applied by `callGeminiAPI` to the raw
response text (extension.ts lines 484-505). -/
def cleanResponse (s : String) : String :=
  String.mk (cleanStep4 (cleanStep3 (cleanStep2 (cleanStep1 s.data))))

/-- The parsed JSON shape of a backend response body: either an object with
an `error.message` field, or a candidate list, each candidate reduced to
the text of its first part (`none` when the optional chain
`candidates[i].content.parts[0].text` yields no string). -/
inductive GeminiJson where
  | errorField (message : String)
  | candidates (texts : List (Option String))
deriving DecidableEq

/-- A backend HTTP response: status code, raw body text, and its parsed
JSON shape. -/
structure HttpResponse where
  status : Nat
  body : String
  json : GeminiJson
deriving DecidableEq

/-- `response.ok`: status in the range 200-299. -/
def respOk (r : HttpResponse) : Bool :=
  200 ≤ r.status && r.status ≤ 299

/-- `callGeminiAPI` (extension.ts lines 455-506), with the network round
trip abstracted into the `HttpResponse` the backend returns: non-success
status → error carrying the status and the raw body; `error` field → error
carrying its message; no extractable candidate text → format error;
otherwise the cleaned docstring. -/
def callGeminiAPI (r : HttpResponse) : Except String String :=
  if respOk r = false then
    Except.error ("API request failed with status " ++ toString r.status ++ ": " ++ r.body)
  else
    match r.json with
    | GeminiJson.errorField m => Except.error ("API returned an error: " ++ m)
    | GeminiJson.candidates ts =>
      match ts.headD none with
      | some d => Except.ok (cleanResponse d)
      | none => Except.error "Unexpected API response format. Could not extract docstring."

/-- The observable outcome of one run of the `generateDocstring` command:
the buffer text after the run, the user-visible message, whether the
backend was invoked, and the body handed to the Insertion Formatter
(`none` when the formatter never ran). -/
structure RunResult where
  buffer : String
  message : String
  apiCalled : Bool
  insertedBody : Option String
deriving DecidableEq

/-- `generateDocstring` (extension.ts lines 204-268), with the model and
API key configuration assumed present and the backend's response passed in
as `resp`.  A thrown error is caught at the top of the handler and shown
as `Error generating docstring: …`; a `null` detection shows the guidance
message; an empty (all-whitespace) buffer in module mode short-circuits to
the profile's `emptyCodeResponse` without calling the backend. -/
def generateDocstring (p : LanguageConfig) (lines : List String) (sel : Sel)
    (resp : HttpResponse) : RunResult :=
  match getCodeToDocument p lines sel with
  | Except.error e =>
    { buffer := getText lines
      message := "Error generating docstring: " ++ e
      apiCalled := false
      insertedBody := none }
  | Except.ok none =>
    { buffer := getText lines
      message := "Could not determine the code to document. Please select a function/class or place your cursor inside one."
      apiCalled := false
      insertedBody := none }
  | Except.ok (some ctx) =>
    if jsTrimS (getText lines) = "" ∧ ctx.isModuleLevel = true then
      { buffer := insertDocstringText lines p.promptSettings.emptyCodeResponse ctx p
        message := "Docstring generated successfully!"
        apiCalled := false
        insertedBody := some p.promptSettings.emptyCodeResponse }
    else
      match callGeminiAPI resp with
      | Except.error e =>
        { buffer := getText lines
          message := "Error generating docstring: " ++ e
          apiCalled := true
          insertedBody := none }
      | Except.ok d =>
        { buffer := insertDocstringText lines d ctx p
          message := "Docstring generated successfully!"
          apiCalled := true
          insertedBody := some d }

/-- The block-open marker a profile's specification assigns to it: `':'`
for the Python profile and `'{'` for the PowerShell profile.  This encodes
the claim-side notion of a per-profile continuation token; the code itself
consults no such per-profile marker during the upward walk. -/
def specBlockOpenMarker (p : LanguageConfig) : String :=
  if p.languageIds.contains "python" then ":"
  else if p.languageIds.contains "powershell" then "\x7b"
  else ""

/-- Claim-side continuation test for the upward walk: the line is blank, or
ends with the statement-separator comma, or ends with the profile's
block-open marker. -/
def specContinuationOk (p : LanguageConfig) (t : String) : Bool :=
  isEmptyOrWhitespace t || strEndsWith t ',' ||
    isPrefixL (specBlockOpenMarker p).data.reverse t.data.reverse

/-- Claim-side prediction of when the upward walk from line `L` aborts with
a malformed-context error: it visits, before any line matching the
definition pattern, a non-blank line that fails `specContinuationOk`. -/
def specStrictAborts (p : LanguageConfig) (lines : List String) : Nat → Bool
  | 0 =>
    if p.definitionKeywords (lineAt lines 0) then false
    else !(specContinuationOk p (lineAt lines 0))
  | i + 1 =>
    if p.definitionKeywords (lineAt lines (i + 1)) then false
    else if !(specContinuationOk p (lineAt lines (i + 1))) then true
    else specStrictAborts p lines i

end AidocsWriter

namespace AidocsWriter

/-- The upward walk errors exactly when some visited line below the first
definition-pattern match fails the strict-walk test. -/
theorem findDefUp_error_iff (p : LanguageConfig) (lines : List String) :
    ∀ L, (∃ e, findDefUp p lines L = Except.error e) ↔
      (∃ j, j ≤ L ∧ p.definitionKeywords (lineAt lines j) = false ∧
        lineBad (lineAt lines j) = true ∧
        ∀ k, j < k → k ≤ L →
          p.definitionKeywords (lineAt lines k) = false ∧
            lineBad (lineAt lines k) = false) := by
  intro L
  induction L with
  | zero =>
    constructor
    · rintro ⟨e, h⟩
      by_cases hm : p.definitionKeywords (lineAt lines 0) = true
      · simp [findDefUp, hm] at h
      · simp only [Bool.not_eq_true] at hm
        by_cases hb : lineBad (lineAt lines 0) = true
        · exact ⟨0, le_refl 0, hm, hb, by omega⟩
        · simp only [Bool.not_eq_true] at hb
          simp [findDefUp, hm, hb] at h
    · rintro ⟨j, hj, hjm, hjb, hall⟩
      have hj0 : j = 0 := Nat.le_zero.mp hj
      subst hj0
      exact ⟨"Could not find a definition.", by simp [findDefUp, hjm, hjb]⟩
  | succ L ih =>
    by_cases hm : p.definitionKeywords (lineAt lines (L + 1)) = true
    · constructor
      · rintro ⟨e, h⟩
        simp [findDefUp, hm] at h
      · rintro ⟨j, hj, hjm, hjb, hall⟩
        rcases Nat.lt_or_ge j (L + 1) with hlt | hge
        · have := (hall (L + 1) hlt (le_refl _)).1
          rw [hm] at this
          cases this
        · have hje : j = L + 1 := Nat.le_antisymm hj hge
          subst hje
          rw [hm] at hjm
          cases hjm
    · simp only [Bool.not_eq_true] at hm
      by_cases hb : lineBad (lineAt lines (L + 1)) = true
      · constructor
        · intro _
          exact ⟨L + 1, le_refl _, hm, hb, by omega⟩
        · intro _
          exact ⟨"Could not find a definition.", by simp [findDefUp, hm, hb]⟩
      · simp only [Bool.not_eq_true] at hb
        have hstep : findDefUp p lines (L + 1) = findDefUp p lines L := by
          simp [findDefUp, hm, hb]
        rw [hstep, ih]
        constructor
        · rintro ⟨j, hj, hjm, hjb, hall⟩
          refine ⟨j, by omega, hjm, hjb, ?_⟩
          intro k hk1 hk2
          rcases Nat.lt_or_ge k (L + 1) with hlt | hge
          · exact hall k hk1 (by omega)
          · have : k = L + 1 := by omega
            subst this
            exact ⟨hm, hb⟩
        · rintro ⟨j, hj, hjm, hjb, hall⟩
          rcases Nat.lt_or_ge j (L + 1) with hlt | hge
          · refine ⟨j, by omega, hjm, hjb, ?_⟩
            intro k hk1 hk2
            exact hall k hk1 (by omega)
          · have : j = L + 1 := by omega
            subst this
            rw [hjb] at hb
            cases hb

/-- The upward walk returns `none` exactly when every line from the cursor
down to line 0 is a non-matching continuation line. -/
theorem findDefUp_none_iff (p : LanguageConfig) (lines : List String) :
    ∀ L, findDefUp p lines L = Except.ok none ↔
      (∀ k, k ≤ L → p.definitionKeywords (lineAt lines k) = false ∧
        lineBad (lineAt lines k) = false) := by
  intro L
  induction L with
  | zero =>
    constructor
    · intro h
      by_cases hm : p.definitionKeywords (lineAt lines 0) = true
      · simp [findDefUp, hm] at h
      · simp only [Bool.not_eq_true] at hm
        by_cases hb : lineBad (lineAt lines 0) = true
        · simp [findDefUp, hm, hb] at h
        · simp only [Bool.not_eq_true] at hb
          intro k hk
          have : k = 0 := Nat.le_zero.mp hk
          subst this
          exact ⟨hm, hb⟩
    · intro hall
      have := hall 0 (le_refl 0)
      simp [findDefUp, this.1, this.2]
  | succ L ih =>
    by_cases hm : p.definitionKeywords (lineAt lines (L + 1)) = true
    · constructor
      · intro h
        simp [findDefUp, hm] at h
      · intro hall
        have := (hall (L + 1) (le_refl _)).1
        rw [hm] at this
        cases this
    · simp only [Bool.not_eq_true] at hm
      by_cases hb : lineBad (lineAt lines (L + 1)) = true
      · constructor
        · intro h
          simp [findDefUp, hm, hb] at h
        · intro hall
          have := (hall (L + 1) (le_refl _)).2
          rw [hb] at this
          cases this
      · simp only [Bool.not_eq_true] at hb
        have hstep : findDefUp p lines (L + 1) = findDefUp p lines L := by
          simp [findDefUp, hm, hb]
        rw [hstep, ih]
        constructor
        · intro hall k hk
          rcases Nat.lt_or_ge k (L + 1) with hlt | hge
          · exact hall k (by omega)
          · have : k = L + 1 := by omega
            subst this
            exact ⟨hm, hb⟩
        · intro hall k hk
          exact hall k (by omega)

/-- In enclosing-definition mode, `getCodeToDocument` reduces to the case-3
branch: the upward walk followed by the downward walk. -/
theorem getCodeToDocument_enclosing (p : LanguageConfig) (lines : List String) (sel : Sel)
    (h1 : sel.anchor = sel.active)
    (h2 : ¬(sel.active.line = 0 ∧ sel.active.char = 0)) :
    getCodeToDocument p lines sel =
      match findDefUp p lines sel.active.line with
      | Except.error e => Except.error e
      | Except.ok none => Except.ok none
      | Except.ok (some d) =>
        let defLine := lineAt lines d
        let defIndent := firstNonWsIdx defLine
        let e := findBlockEnd lines defIndent (d + 1)
        Except.ok (some
          { code := getTextRange lines d e
            isModuleLevel := false
            range := (⟨d, 0⟩, ⟨e, 0⟩)
            indentation := leadingWs defLine
            definitionLine := d }) := by
  unfold getCodeToDocument
  rw [if_neg (fun hc => h2 ⟨hc.2.1, hc.2.2⟩), if_neg (fun hn => hn h1)]

/-- Claim C1, counterexample.  With the PowerShell profile, the buffer whose
single line is `if ($x) {` and the cursor at (0, 1) with no selection, the
only line the upward walk visits is non-blank and ends with the profile's
block-open marker `{` — a continuation line according to the claim, whose
prediction `specStrictAborts` is therefore false — yet detection aborts
with the malformed-context error, because the code accepts only a trailing
`','` or `':'` for every profile. -/
theorem c1_counterexample :
    getCodeToDocument powershellConfig ["if ($x) \x7b"] ⟨⟨0, 1⟩, ⟨0, 1⟩⟩ =
      Except.error "Could not find a definition." ∧
    strEndsWith "if ($x) \x7b" '\x7b' = true ∧
    specStrictAborts powershellConfig ["if ($x) \x7b"] 0 = false := by
  exact ⟨rfl, rfl, rfl⟩

/-- Claim C1, amended.  In enclosing-definition mode (empty selection,
cursor not at (0,0)), for every buffer and every language profile, the
upward walk aborts detection with a malformed-context error exactly when,
before reaching a line matching the profile's definition pattern, it
visits a non-blank line that does not end with a continuation token, where
the continuation tokens are a trailing comma or a trailing colon for every
profile alike — the profile's block-open marker is not consulted, so for
the PowerShell profile a trailing `{` is not a continuation token while a
trailing `:` is.  Otherwise the walk either finds the definition line or
returns null at the start of the buffer (second conjunct). -/
theorem c1_strict_walk (p : LanguageConfig) (lines : List String) (sel : Sel)
    (h1 : sel.anchor = sel.active)
    (h2 : ¬(sel.active.line = 0 ∧ sel.active.char = 0)) :
    ((∃ e, getCodeToDocument p lines sel = Except.error e) ↔
      (∃ j, j ≤ sel.active.line ∧ p.definitionKeywords (lineAt lines j) = false ∧
        lineBad (lineAt lines j) = true ∧
        ∀ k, j < k → k ≤ sel.active.line →
          p.definitionKeywords (lineAt lines k) = false ∧
            lineBad (lineAt lines k) = false)) ∧
    (getCodeToDocument p lines sel = Except.ok none ↔
      (∀ k, k ≤ sel.active.line → p.definitionKeywords (lineAt lines k) = false ∧
        lineBad (lineAt lines k) = false)) := by
  rw [getCodeToDocument_enclosing p lines sel h1 h2]
  rw [← findDefUp_error_iff p lines sel.active.line, ← findDefUp_none_iff p lines sel.active.line]
  cases hfd : findDefUp p lines sel.active.line with
  | error e => simp
  | ok o =>
    cases o with
    | none => simp
    | some d => simp

/-- Witness for `c1_strict_walk`: the characterization instantiated at the
Python profile, buffer `["def f():", "  x = 1"]` and cursor (1, 2). -/
theorem c1_strict_walk_witness :
    ((∃ e, getCodeToDocument pythonConfig ["def f():", "  x = 1"] ⟨⟨1, 2⟩, ⟨1, 2⟩⟩ =
        Except.error e) ↔
      (∃ j, j ≤ 1 ∧ pythonConfig.definitionKeywords (lineAt ["def f():", "  x = 1"] j) = false ∧
        lineBad (lineAt ["def f():", "  x = 1"] j) = true ∧
        ∀ k, j < k → k ≤ 1 →
          pythonConfig.definitionKeywords (lineAt ["def f():", "  x = 1"] k) = false ∧
            lineBad (lineAt ["def f():", "  x = 1"] k) = false)) ∧
    (getCodeToDocument pythonConfig ["def f():", "  x = 1"] ⟨⟨1, 2⟩, ⟨1, 2⟩⟩ = Except.ok none ↔
      (∀ k, k ≤ 1 → pythonConfig.definitionKeywords (lineAt ["def f():", "  x = 1"] k) = false ∧
        lineBad (lineAt ["def f():", "  x = 1"] k) = false)) :=
  c1_strict_walk pythonConfig ["def f():", "  x = 1"] ⟨⟨1, 2⟩, ⟨1, 2⟩⟩ rfl (by decide)

/-- Claim C2.  Scenario B evaluated on the code.  First conjunct: with the
current `getCodeToDocument` (extension.ts), the buffer
`def f(x):\n    return x\n` with the cursor on line 1 makes detection throw
`Could not find a definition.` — the strict upward walk rejects the body
line `    return x` — so nothing is inserted.  Second and third conjuncts:
with the upward walk of the earlier variant (part_000), detection succeeds
with the region of lines 0-1 (the half-open line range [0, 3), whose text
is exactly the two-line buffer) and `definitionLine = 0`, and the formatter
then inserts the comment block at line 1, indented four columns, with the
original two lines unmodified below it. -/
theorem c2_scenarioB :
    getCodeToDocument pythonConfig ["def f(x):", "    return x", ""] ⟨⟨1, 0⟩, ⟨1, 0⟩⟩ =
      Except.error "Could not find a definition." ∧
    getCodeToDocumentV0 ["def f(x):", "    return x", ""] ⟨⟨1, 0⟩, ⟨1, 0⟩⟩ =
      some
        { code := "def f(x):\n    return x\n"
          isModuleLevel := false
          range := (⟨0, 0⟩, ⟨3, 0⟩)
          indentation := ""
          definitionLine := 0 } ∧
    insertDocstringText ["def f(x):", "    return x", ""] "Doc."
        { code := "def f(x):\n    return x\n"
          isModuleLevel := false
          range := (⟨0, 0⟩, ⟨3, 0⟩)
          indentation := ""
          definitionLine := 0 } pythonConfig =
      "def f(x):\n    \"\"\"\n    Doc.\n    \"\"\"\n\n    return x\n" :=
  ⟨rfl, rfl, by rfl⟩

/-- Claim C5.  For every buffer (including the empty buffer) and every
profile, an empty selection with the cursor at (0, 0) yields module mode:
`code` is the full buffer text, `isModuleLevel` is true, `indentation` is
empty, and `definitionLine` is 0. -/
theorem c5_module_mode (p : LanguageConfig) (lines : List String) :
    getCodeToDocument p lines ⟨⟨0, 0⟩, ⟨0, 0⟩⟩ = Except.ok (some
      { code := getText lines
        isModuleLevel := true
        range := (⟨0, 0⟩, ⟨lines.length - 1, (lineAt lines (lines.length - 1)).length⟩)
        indentation := ""
        definitionLine := 0 }) := rfl

/-- Claim C3, counterexample.  The Python buffer `["def f():", "x = 1"]`
with the cursor at (0, 5) is the empty-body case (the line after the
definition is non-blank at indentation 0 ≤ 0), and detection returns a
context whose `code` is `"def f():\n"` — the definition line itself — not
the empty string. -/
theorem c3_counterexample :
    getCodeToDocument pythonConfig ["def f():", "x = 1"] ⟨⟨0, 5⟩, ⟨0, 5⟩⟩ =
      Except.ok (some
        { code := "def f():\n"
          isModuleLevel := false
          range := (⟨0, 0⟩, ⟨1, 0⟩)
          indentation := ""
          definitionLine := 0 }) ∧
    "def f():\n" ≠ "" :=
  ⟨rfl, by decide⟩

/-- The downward walk stops immediately when its starting line is already
past the end of the buffer or is non-blank and indented at most `defI`. -/
theorem findBlockEndAux_at_stop (lines : List String) (defI fuel e : Nat)
    (h : e < lines.length →
      (!(isEmptyOrWhitespace (lineAt lines e)) &&
        decide (firstNonWsIdx (lineAt lines e) ≤ defI)) = true) :
    findBlockEndAux lines defI fuel e = e := by
  cases fuel with
  | zero => rfl
  | succ m =>
    unfold findBlockEndAux
    by_cases he : e < lines.length
    · rw [if_pos he, if_pos (h he)]
    · rw [if_neg he]

/-- Dropping up to the last line of a buffer leaves just that line. -/
theorem drop_eq_single (lines : List String) (d : Nat) (h1 : d < lines.length)
    (h2 : d + 1 = lines.length) : lines.drop d = [lineAt lines d] := by
  rw [List.drop_eq_getElem_cons h1]
  rw [List.drop_eq_nil_of_le (by omega)]
  rw [lineAt, List.getD_eq_getElem lines "" h1]

/-- Prepending the empty string is the identity. -/
theorem empty_append_str (s : String) : "" ++ s = s := by
  obtain ⟨data⟩ := s
  rfl

/-- Claim C3, amended.  When the enclosing-definition walk finds a
definition line that is immediately followed by a non-blank line at
indentation at most the definition's own (or by the end of the buffer),
detection does not crash: it returns a context whose `code` consists of
exactly the definition line — the half-open line range `[d, d+1)`, i.e.
the definition line followed by a newline (no trailing newline at end of
buffer) — with zero body lines; the `code` field is not the empty string. -/
theorem c3_empty_body (p : LanguageConfig) (lines : List String) (sel : Sel) (d : Nat)
    (h1 : sel.anchor = sel.active)
    (h2 : ¬(sel.active.line = 0 ∧ sel.active.char = 0))
    (h3 : findDefUp p lines sel.active.line = Except.ok (some d))
    (h4 : d < lines.length)
    (h5 : d + 1 < lines.length →
      isEmptyOrWhitespace (lineAt lines (d + 1)) = false ∧
        firstNonWsIdx (lineAt lines (d + 1)) ≤ firstNonWsIdx (lineAt lines d)) :
    getCodeToDocument p lines sel = Except.ok (some
      { code := getTextRange lines d (d + 1)
        isModuleLevel := false
        range := (⟨d, 0⟩, ⟨d + 1, 0⟩)
        indentation := leadingWs (lineAt lines d)
        definitionLine := d }) ∧
    getTextRange lines d (d + 1) =
      (if d + 1 = lines.length then lineAt lines d else lineAt lines d ++ "\n") := by
  have hbe : findBlockEnd lines (firstNonWsIdx (lineAt lines d)) (d + 1) = d + 1 := by
    apply findBlockEndAux_at_stop
    intro hlt
    have hh := h5 hlt
    rw [hh.1]
    simp [hh.2]
  constructor
  · rw [getCodeToDocument_enclosing p lines sel h1 h2, h3]
    simp only [hbe]
  · by_cases hend : d + 1 = lines.length
    · rw [if_pos hend]
      unfold getTextRange
      rw [if_pos (by omega)]
      rw [drop_eq_single lines d h4 hend]
      rfl
    · rw [if_neg hend]
      have hlt : d + 1 < lines.length := by omega
      unfold getTextRange
      rw [if_neg (by omega)]
      rw [List.drop_eq_getElem_cons h4]
      have h1d : d + 1 - d = 1 := by omega
      rw [h1d]
      simp only [List.take_succ_cons, List.take_zero, List.map_cons, List.map_nil,
        String.join, List.foldl_cons, List.foldl_nil, empty_append_str]
      rw [lineAt, List.getD_eq_getElem lines "" h4]

/-- Witness for `c3_empty_body`: the empty-body case at the Python buffer
`["def f():", "x = 1"]`, cursor (0, 5), definition found at line 0. -/
theorem c3_empty_body_witness :
    getCodeToDocument pythonConfig ["def f():", "x = 1"] ⟨⟨0, 5⟩, ⟨0, 5⟩⟩ = Except.ok (some
      { code := getTextRange ["def f():", "x = 1"] 0 (0 + 1)
        isModuleLevel := false
        range := (⟨0, 0⟩, ⟨0 + 1, 0⟩)
        indentation := leadingWs (lineAt ["def f():", "x = 1"] 0)
        definitionLine := 0 }) ∧
    getTextRange ["def f():", "x = 1"] 0 (0 + 1) =
      (if 0 + 1 = (["def f():", "x = 1"] : List String).length
        then lineAt ["def f():", "x = 1"] 0
        else lineAt ["def f():", "x = 1"] 0 ++ "\n") :=
  c3_empty_body pythonConfig ["def f():", "x = 1"] ⟨⟨0, 5⟩, ⟨0, 5⟩⟩ 0
    rfl (by decide) rfl (by decide) (fun _ => by constructor <;> decide)

/-- `String.mk` undoes `String.data`. -/
theorem string_mk_data (s : String) : String.mk s.data = s := by
  obtain ⟨d⟩ := s
  rfl

/-- Claim C4, counterexample.  The cleanup transform is not idempotent:
on `"a#>b#>"` one application truncates at the last `#>` and yields
`"a#>b"`, which still contains the earlier `#>`, so a second application
truncates again and yields `"a"`. -/
theorem c4_counterexample :
    cleanResponse "a#>b#>" = "a#>b" ∧
    cleanResponse (cleanResponse "a#>b#>") = "a" ∧
    cleanResponse (cleanResponse "a#>b#>") ≠ cleanResponse "a#>b#>" :=
  ⟨by rfl, by rfl, by decide⟩

/-- `jsTrimL` factors through `List.dropWhile` and `List.rdropWhile`. -/
theorem jsTrimL_eq (l : List Char) :
    jsTrimL l = List.rdropWhile jsWs (List.dropWhile jsWs l) := rfl

/-- Removing leading whitespace is still unnecessary after the trailing
whitespace of a front-trimmed list is removed. -/
theorem dropWhile_rdropWhile (x : List Char)
    (hx : List.dropWhile jsWs x = x) :
    List.dropWhile jsWs (List.rdropWhile jsWs x) = List.rdropWhile jsWs x := by
  rw [List.dropWhile_eq_self_iff] at hx
  obtain ⟨t2, ht⟩ := List.rdropWhile_prefix jsWs x
  cases hr : List.rdropWhile jsWs x with
  | nil => rfl
  | cons a t =>
    rw [hr] at ht
    subst ht
    have ha := hx (by simp)
    simp only [List.get] at ha
    simp [List.dropWhile_cons, ha]

/-- The JS trim is idempotent. -/
theorem jsTrimL_idem (l : List Char) : jsTrimL (jsTrimL l) = jsTrimL l := by
  rw [jsTrimL_eq l, jsTrimL_eq, dropWhile_rdropWhile _ (List.dropWhile_idempotent _ _),
    List.rdropWhile_idempotent, ← jsTrimL_eq]

/-- A successful keyword match means the keyword is a prefix. -/
theorem matchKw_isPrefix (ks : List Char) : ∀ l r, matchKw ks l = some r → isPrefixL ks l = true := by
  induction ks with
  | nil => intro l r _; rfl
  | cons k ks ih =>
    intro l r h
    cases l with
    | nil => cases h
    | cons c cs =>
      unfold matchKw at h
      by_cases hk : k = c
      · rw [if_pos hk] at h
        unfold isPrefixL
        simp [hk, ih cs r h]
      · rw [if_neg hk] at h
        cases h

/-- A fence match can only fire where three backticks stand. -/
theorem fenceMatch_isPrefix (l r : List Char) (h : fenceMatch l = some r) :
    isPrefixL "```".data l = true := by
  unfold fenceMatch at h
  cases hm : matchKw "```".data l with
  | none => rw [hm] at h; cases h
  | some rest => exact matchKw_isPrefix _ l rest hm

/-- The fence replace leaves a text without triple backticks unchanged. -/
theorem stripFencesAux_no_fence (n : Nat) : ∀ l : List Char,
    hasSub "```".data l = false → stripFencesAux n l = l := by
  induction n with
  | zero => intro l _; rfl
  | succ m ih =>
    intro l h
    cases l with
    | nil => rfl
    | cons c cs =>
      unfold stripFencesAux
      unfold hasSub at h
      obtain ⟨hp, hs⟩ := Bool.or_eq_false_iff.mp h
      cases hf : fenceMatch (c :: cs) with
      | some r =>
        rw [fenceMatch_isPrefix _ _ hf] at hp
        cases hp
      | none =>
        rw [ih cs hs]

/-- When the pattern does not occur, `lastIdxOf` finds nothing. -/
theorem lastIdxOf_none (pat : List Char) : ∀ l, hasSub pat l = false → lastIdxOf pat l = none := by
  intro l
  induction l with
  | nil =>
    intro h
    unfold hasSub at h
    unfold lastIdxOf
    simp [h]
  | cons c cs ih =>
    intro h
    unfold hasSub at h
    obtain ⟨hp, hs⟩ := Bool.or_eq_false_iff.mp h
    unfold lastIdxOf
    rw [ih hs]
    simp [hp]

/-- Every output of the cleanup transform is trimmed. -/
theorem cleanResponse_trimmed (s : String) :
    jsTrimL (cleanResponse s).data = (cleanResponse s).data := by
  show jsTrimL (cleanStep4 (cleanStep3 (cleanStep2 (cleanStep1 s.data)))) = _
  have t2 : ∀ x, jsTrimL x = x → jsTrimL (cleanStep2 x) = cleanStep2 x := by
    intro x hx
    unfold cleanStep2
    split
    · exact jsTrimL_idem _
    · exact hx
  have t3 : ∀ x, jsTrimL x = x → jsTrimL (cleanStep3 x) = cleanStep3 x := by
    intro x hx
    unfold cleanStep3
    split
    · exact jsTrimL_idem _
    · exact hx
  have t4 : ∀ x, jsTrimL x = x → jsTrimL (cleanStep4 x) = cleanStep4 x := by
    intro x hx
    unfold cleanStep4
    split
    · exact jsTrimL_idem _
    · exact hx
  exact t4 _ (t3 _ (t2 _ (jsTrimL_idem _)))

/-- Claim C4, amended.  The cleanup transform is idempotent on every input
whose once-cleaned text contains no triple-backtick fence, does not both
start and end with `\"\"\"`, does not start with `<#`, and contains no
occurrence of `#>` (the last condition is what the counterexample
violates: a truncation at the last `#>` can leave an earlier `#>` behind,
and the other three guards can likewise re-fire on their own output). -/
theorem c4_cleanup_idempotent (s : String)
    (h1 : hasSub "```".data (cleanResponse s).data = false)
    (h2 : (isPrefixL "\"\"\"".data (cleanResponse s).data &&
        isPrefixL "\"\"\"".data.reverse (cleanResponse s).data.reverse) = false)
    (h3 : isPrefixL "<#".data (cleanResponse s).data = false)
    (h4 : hasSub "#>".data (cleanResponse s).data = false) :
    cleanResponse (cleanResponse s) = cleanResponse s := by
  have e1 : cleanStep1 (cleanResponse s).data = (cleanResponse s).data := by
    unfold cleanStep1 stripFences
    rw [stripFencesAux_no_fence _ _ h1, cleanResponse_trimmed s]
  have e2 : cleanStep2 (cleanResponse s).data = (cleanResponse s).data := by
    unfold cleanStep2
    simp only [h2]
    simp
  have e3 : cleanStep3 (cleanResponse s).data = (cleanResponse s).data := by
    unfold cleanStep3
    simp [h3]
  have e4 : cleanStep4 (cleanResponse s).data = (cleanResponse s).data := by
    unfold cleanStep4
    rw [lastIdxOf_none _ _ h4]
  show String.mk (cleanStep4 (cleanStep3 (cleanStep2 (cleanStep1 (cleanResponse s).data)))) =
    cleanResponse s
  rw [e1, e2, e3, e4, string_mk_data]

/-- Witness for `c4_cleanup_idempotent`: a plain two-line docstring. -/
theorem c4_cleanup_idempotent_witness :
    cleanResponse (cleanResponse "Doc line one.\nDoc line two.") =
      cleanResponse "Doc line one.\nDoc line two." :=
  c4_cleanup_idempotent "Doc line one.\nDoc line two."
    (by decide) (by decide) (by decide) (by decide)

/-- Joining a buffer with at least two lines. -/
theorem getText_cons_ne (l : String) (ls : List String) (h : ls ≠ []) :
    getText (l :: ls) = l ++ "\n" ++ getText ls := by
  cases ls with
  | nil => exact absurd rfl h
  | cons x xs => rfl

/-- The start offset of an existing line lies inside the joined text. -/
theorem lineStartOff_le (lines : List String) : ∀ k, k < lines.length →
    lineStartOff lines k ≤ (getText lines).length := by
  induction lines with
  | nil => intro k hk; simp at hk
  | cons l ls ih =>
    intro k hk
    cases k with
    | zero => exact Nat.zero_le _
    | succ m =>
      have hm : m < ls.length := by simpa using hk
      have hne : ls ≠ [] := by
        intro he
        rw [he] at hm
        simp at hm
      rw [getText_cons_ne l ls hne]
      unfold lineStartOff
      rw [String.length_append, String.length_append]
      have := ih m hm
      have h1 : ("\n" : String).length = 1 := rfl
      omega

/-- Every computed insertion offset lies inside the text. -/
theorem posOffset_le (lines : List String) (k : Nat) :
    posOffset lines k ≤ (getText lines).length := by
  unfold posOffset
  by_cases hk : k < lines.length
  · rw [if_pos hk]
    exact lineStartOff_le lines k hk
  · rw [if_neg hk]

/-- The inserted block is never empty (both shapes end in a blank line). -/
theorem insertionText_pos (docstring : String) (ctx : CodeContext) (p : LanguageConfig) :
    0 < (insertionText docstring ctx p).length := by
  unfold insertionText
  split
  · rw [String.length_append]
    have h2 : ("\n\n" : String).length = 2 := rfl
    omega
  · rw [String.length_append]
    have h2 : ("\n\n" : String).length = 2 := rfl
    omega

/-- Claim C8.  For every buffer, cleaned body, context, and profile, the
post-insertion text equals the pre-insertion text with exactly one
non-empty contiguous block spliced in at the computed insertion offset —
every pre-existing character is kept, in order, on its original side of
the splice point. -/
theorem c8_insertion_splice (lines : List String) (docstring : String)
    (ctx : CodeContext) (p : LanguageConfig) :
    ∃ i s, i ≤ (getText lines).length ∧ 0 < String.length s ∧
      insertDocstringText lines docstring ctx p =
        String.mk ((getText lines).data.take i ++ s.data ++ (getText lines).data.drop i) :=
  ⟨posOffset lines (insertLineOf lines ctx p), insertionText docstring ctx p,
    posOffset_le lines _, insertionText_pos docstring ctx p, rfl⟩

/-- Claim C7.  On the empty buffer in module mode, the pipeline result does
not depend on the backend response at all: the backend is not invoked
(`apiCalled = false`) and the body handed to the formatter is exactly the
profile's `emptyCodeResponse` literal. -/
theorem c7_empty_short_circuit (p : LanguageConfig) (resp : HttpResponse) :
    generateDocstring p [""] ⟨⟨0, 0⟩, ⟨0, 0⟩⟩ resp =
      { buffer := insertDocstringText [""] p.promptSettings.emptyCodeResponse
          { code := ""
            isModuleLevel := true
            range := (⟨0, 0⟩, ⟨0, 0⟩)
            indentation := ""
            definitionLine := 0 } p
        message := "Docstring generated successfully!"
        apiCalled := false
        insertedBody := some p.promptSettings.emptyCodeResponse } := rfl

/-- Claim C9.  Whenever detection succeeds, the empty-module short circuit
does not apply, and the backend responds with a non-success status, the
run surfaces an error carrying that status and the raw response body, the
formatter never runs (`insertedBody = none`), and the buffer text is
unchanged. -/
theorem c9_backend_error (p : LanguageConfig) (lines : List String) (sel : Sel)
    (resp : HttpResponse) (ctx : CodeContext)
    (h1 : getCodeToDocument p lines sel = Except.ok (some ctx))
    (h2 : ¬(jsTrimS (getText lines) = "" ∧ ctx.isModuleLevel = true))
    (h3 : respOk resp = false) :
    generateDocstring p lines sel resp =
      { buffer := getText lines
        message := "Error generating docstring: " ++
          ("API request failed with status " ++ toString resp.status ++ ": " ++ resp.body)
        apiCalled := true
        insertedBody := none } := by
  unfold generateDocstring
  rw [h1]
  simp only []
  rw [if_neg h2]
  unfold callGeminiAPI
  simp only [h3]
  simp

/-- Witness for `c9_backend_error`: a selection-mode run receiving HTTP
429 with body `quota exceeded` leaves the buffer `x = 1` untouched. -/
theorem c9_backend_error_witness :
    generateDocstring pythonConfig ["x = 1"] ⟨⟨0, 0⟩, ⟨0, 1⟩⟩
        ⟨429, "quota exceeded", GeminiJson.errorField "quota exceeded"⟩ =
      { buffer := "x = 1"
        message := "Error generating docstring: " ++
          ("API request failed with status " ++ toString (429 : Nat) ++ ": " ++ "quota exceeded")
        apiCalled := true
        insertedBody := none } :=
  c9_backend_error pythonConfig ["x = 1"] ⟨⟨0, 0⟩, ⟨0, 1⟩⟩
    ⟨429, "quota exceeded", GeminiJson.errorField "quota exceeded"⟩
    { code := "x"
      isModuleLevel := false
      range := (⟨0, 0⟩, ⟨0, 1⟩)
      indentation := ""
      definitionLine := 0 }
    rfl (by decide) rfl

/-- Claim C10.  The cleanup transform is profile-independent: in a run with
the Python profile, the body handed to the formatter is `cleanResponse`
of the raw response text, and whenever the text left by steps 1-3 (fence
strip, triple-quote strip, leading `<#` strip) still contains `#>`, the
cleaned body is the trimmed prefix before the last `#>` — everything after
it is discarded even though `#>` is PowerShell syntax. -/
theorem c10_cleanup_truncation (s : String) (i : Nat)
    (h : lastIdxOf "#>".data (cleanSteps123 s).data = some i) :
    (generateDocstring pythonConfig ["x = 1"] ⟨⟨0, 0⟩, ⟨0, 1⟩⟩
        ⟨200, "", GeminiJson.candidates [some s]⟩).insertedBody = some (cleanResponse s) ∧
    cleanResponse s = String.mk (jsTrimL ((cleanSteps123 s).data.take i)) := by
  constructor
  · rfl
  · show String.mk (cleanStep4 (cleanSteps123 s).data) = _
    unfold cleanStep4
    rw [h]

/-- Witness for `c10_cleanup_truncation`: the Python-mode response
`Doc.#>junk` is truncated at the `#>` (index 4), discarding `junk`. -/
theorem c10_cleanup_truncation_witness :
    (generateDocstring pythonConfig ["x = 1"] ⟨⟨0, 0⟩, ⟨0, 1⟩⟩
        ⟨200, "", GeminiJson.candidates [some "Doc.#>junk"]⟩).insertedBody =
      some (cleanResponse "Doc.#>junk") ∧
    cleanResponse "Doc.#>junk" =
      String.mk (jsTrimL ((cleanSteps123 "Doc.#>junk").data.take 4)) :=
  c10_cleanup_truncation "Doc.#>junk" 4 (by decide)

/-- String append acts as list append on the underlying characters. -/
theorem string_data_append (a b : String) : (a ++ b).data = a.data ++ b.data := by
  obtain ⟨x⟩ := a
  obtain ⟨y⟩ := b
  rfl

/-- The start offset of line 0 is 0. -/
theorem lineStartOff_zero (lines : List String) : lineStartOff lines 0 = 0 := by
  cases lines <;> rfl

/-- The start offset of line `k + 1` skips the first line and its newline. -/
theorem lineStartOff_succ (l : String) (ls : List String) (k : Nat) :
    lineStartOff (l :: ls) (k + 1) = l.length + 1 + lineStartOff ls k := rfl

/-- The characters of a multi-line buffer: first line, newline, rest. -/
theorem getText_data_cons (l : String) (ls : List String) (h : ls ≠ []) :
    (getText (l :: ls)).data = l.data ++ '\n' :: (getText ls).data := by
  rw [getText_cons_ne l ls h, string_data_append, string_data_append]
  simp

/-- A slice that ends inside the first summand ignores the second. -/
theorem sliceL_append_left (a b : List Char) (p q : Nat) (h : q ≤ a.length) :
    sliceL (a ++ b) p q = sliceL a p q := by
  unfold sliceL
  rw [List.drop_append_eq_append_drop, List.take_append_eq_append_take]
  have h1 : q - p - (a.drop p).length = 0 := by
    rw [List.length_drop]
    omega
  rw [h1, List.take_zero, List.append_nil]

/-- `extractPrefix` produces exactly the first `lineStartOff + c` characters
of the joined text. -/
theorem extractPrefix_data (ls : List String) : ∀ k c, k < ls.length →
    c ≤ (lineAt ls k).length →
    (extractPrefix ls k c).data = (getText ls).data.take (lineStartOff ls k + c) := by
  induction ls with
  | nil => intro k c hk _; simp at hk
  | cons l ls ih =>
    intro k c hk hc
    cases k with
    | zero =>
      show (sliceStr l 0 c).data = _
      rw [lineStartOff_zero]
      unfold sliceStr sliceL
      simp only [List.drop_zero, Nat.sub_zero, Nat.zero_add]
      cases ls with
      | nil => rfl
      | cons x xs =>
        rw [getText_data_cons l (x :: xs) (by simp)]
        rw [List.take_append_eq_append_take]
        have hcl : c ≤ l.data.length := hc
        have h1 : c - l.data.length = 0 := by omega
        rw [h1, List.take_zero, List.append_nil]
    | succ m =>
      have hm : m < ls.length := by simpa using hk
      have hne : ls ≠ [] := by
        intro he
        rw [he] at hm
        simp at hm
      show ((l ++ "\n" ++ extractPrefix ls m c)).data = _
      rw [string_data_append, string_data_append]
      rw [getText_data_cons l ls hne, lineStartOff_succ]
      rw [List.take_append_eq_append_take]
      have hlen : l.length = l.data.length := rfl
      have h1 : l.length + 1 + lineStartOff ls m + c - l.data.length =
          lineStartOff ls m + c + 1 := by omega
      rw [h1]
      rw [List.take_of_length_le (by omega)]
      rw [List.take_succ_cons]
      rw [ih m c hm hc]
      simp

/-- `extractRange` between two valid ordered positions produces exactly the
characters of the joined buffer text between the two character offsets —
the selected text is a byte-identical substring of the document. -/
theorem extractRange_data (lines : List String) : ∀ p q : Pos,
    p.line < lines.length → q.line < lines.length →
    p.char ≤ (lineAt lines p.line).length → q.char ≤ (lineAt lines q.line).length →
    (p.line < q.line ∨ (p.line = q.line ∧ p.char ≤ q.char)) →
    (extractRange lines p q).data =
      sliceL (getText lines).data (lineStartOff lines p.line + p.char)
        (lineStartOff lines q.line + q.char) := by
  induction lines with
  | nil => intro p q hp _ _ _ _; simp at hp
  | cons l ls ih =>
    intro p q hp hq hpc hqc hpq
    obtain ⟨pl, pc⟩ := p
    obtain ⟨ql, qc⟩ := q
    dsimp only at hp hq hpc hqc hpq ⊢
    cases pl with
    | zero =>
      cases ql with
      | zero =>
        show (sliceStr l pc qc).data = _
        rw [lineStartOff_zero]
        simp only [Nat.zero_add]
        unfold sliceStr
        cases ls with
        | nil => rfl
        | cons x xs =>
          rw [getText_data_cons l (x :: xs) (by simp)]
          rw [sliceL_append_left _ _ _ _ hqc]
      | succ mq =>
        have hmq : mq < ls.length := by simpa using hq
        have hne : ls ≠ [] := by
          intro he
          rw [he] at hmq
          simp at hmq
        show ((sliceStr l pc l.length ++ "\n" ++ extractPrefix ls mq qc)).data = _
        rw [string_data_append, string_data_append]
        rw [getText_data_cons l ls hne, lineStartOff_zero, lineStartOff_succ]
        simp only [Nat.zero_add]
        unfold sliceStr sliceL
        rw [List.drop_append_eq_append_drop, List.take_append_eq_append_take]
        have hlen : l.length = l.data.length := rfl
        have hpcl : pc ≤ l.data.length := hpc
        have h0 : pc - l.data.length = 0 := by omega
        rw [h0, List.drop_zero]
        have h1 : (l.data.drop pc).length = l.data.length - pc := List.length_drop _ _
        have h2 : l.length + 1 + lineStartOff ls mq + qc - pc -
            (l.data.drop pc).length = lineStartOff ls mq + qc + 1 := by
          rw [h1]
          omega
        rw [h2]
        rw [List.take_of_length_le (by rw [h1]; omega)]
        rw [List.take_succ_cons]
        rw [extractPrefix_data ls mq qc hmq hqc]
        have h3 : l.length - pc = l.data.length - pc := by omega
        simp [h3]
        omega
    | succ mp =>
      cases ql with
      | zero => omega
      | succ mq =>
        have hmp : mp < ls.length := by simpa using hp
        have hmq : mq < ls.length := by simpa using hq
        have hne : ls ≠ [] := by
          intro he
          rw [he] at hmp
          simp at hmp
        have hpq2 : mp < mq ∨ (mp = mq ∧ pc ≤ qc) := by omega
        show (extractRange ls ⟨mp, pc⟩ ⟨mq, qc⟩).data = _
        rw [ih ⟨mp, pc⟩ ⟨mq, qc⟩ hmp hmq hpc hqc hpq2]
        show sliceL (getText ls).data (lineStartOff ls mp + pc) (lineStartOff ls mq + qc) =
          sliceL (getText (l :: ls)).data (lineStartOff (l :: ls) (mp + 1) + pc)
            (lineStartOff (l :: ls) (mq + 1) + qc)
        rw [getText_data_cons l ls hne, lineStartOff_succ, lineStartOff_succ]
        unfold sliceL
        rw [List.drop_append_eq_append_drop]
        have hlen : l.length = l.data.length := rfl
        have hd : l.data.drop (l.length + 1 + lineStartOff ls mp + pc) = [] := by
          apply List.drop_eq_nil_of_le
          omega
        rw [hd, List.nil_append]
        have h1 : l.length + 1 + lineStartOff ls mp + pc - l.data.length =
            lineStartOff ls mp + pc + 1 := by omega
        rw [h1]
        rw [List.drop_succ_cons]
        have h2 : l.length + 1 + lineStartOff ls mq + qc -
            (l.length + 1 + lineStartOff ls mp + pc) =
            lineStartOff ls mq + qc - (lineStartOff ls mp + pc) := by omega
        rw [h2]

/-- A selection's start never comes after its end. -/
theorem sel_start_le_end (s : Sel) :
    (Sel.start s).line < (Sel.end_ s).line ∨
      ((Sel.start s).line = (Sel.end_ s).line ∧ (Sel.start s).char ≤ (Sel.end_ s).char) := by
  unfold Sel.start Sel.end_
  by_cases h : posLeb s.anchor s.active = true
  · rw [if_pos h, if_pos h]
    unfold posLeb at h
    exact of_decide_eq_true h
  · rw [if_neg h, if_neg h]
    unfold posLeb at h
    have h2 : ¬(s.anchor.line < s.active.line ∨
        (s.anchor.line = s.active.line ∧ s.anchor.char ≤ s.active.char)) := by
      intro hp
      exact h (decide_eq_true hp)
    push_neg at h2
    omega

/-- Claim C6.  For every non-empty selection inside the buffer, detection
returns `code` equal to the exact selected text (no trimming, expansion,
or re-indentation) — which the second conjunct grounds as the
byte-identical substring of the full buffer text between the selection's
character offsets — with `isModuleLevel = false`, `indentation` the
leading whitespace of the line containing the selection's start (not of
the selection itself), and `definitionLine` the selection's start line. -/
theorem c6_selection_mode (p : LanguageConfig) (lines : List String) (sel : Sel)
    (hne : ¬(sel.anchor = sel.active))
    (hp : (Sel.start sel).line < lines.length)
    (hq : (Sel.end_ sel).line < lines.length)
    (hpc : (Sel.start sel).char ≤ (lineAt lines (Sel.start sel).line).length)
    (hqc : (Sel.end_ sel).char ≤ (lineAt lines (Sel.end_ sel).line).length) :
    getCodeToDocument p lines sel = Except.ok (some
      { code := extractRange lines (Sel.start sel) (Sel.end_ sel)
        isModuleLevel := false
        range := (Sel.start sel, Sel.end_ sel)
        indentation := leadingWs (lineAt lines (Sel.start sel).line)
        definitionLine := (Sel.start sel).line }) ∧
    extractRange lines (Sel.start sel) (Sel.end_ sel) =
      sliceStr (getText lines)
        (lineStartOff lines (Sel.start sel).line + (Sel.start sel).char)
        (lineStartOff lines (Sel.end_ sel).line + (Sel.end_ sel).char) := by
  constructor
  · unfold getCodeToDocument
    rw [if_neg (fun hc => hne hc.1), if_pos hne]
  · have hd := extractRange_data lines (Sel.start sel) (Sel.end_ sel)
      hp hq hpc hqc (sel_start_le_end sel)
    rw [← string_mk_data (extractRange lines (Sel.start sel) (Sel.end_ sel)), hd]
    rfl

/-- Witness for `c6_selection_mode`: the selection from (0, 1) to (2, 2)
in the buffer `["abc", "defg", "hij"]`. -/
theorem c6_selection_mode_witness :
    getCodeToDocument pythonConfig ["abc", "defg", "hij"] ⟨⟨0, 1⟩, ⟨2, 2⟩⟩ = Except.ok (some
      { code := extractRange ["abc", "defg", "hij"] (Sel.start ⟨⟨0, 1⟩, ⟨2, 2⟩⟩)
          (Sel.end_ ⟨⟨0, 1⟩, ⟨2, 2⟩⟩)
        isModuleLevel := false
        range := (Sel.start ⟨⟨0, 1⟩, ⟨2, 2⟩⟩, Sel.end_ ⟨⟨0, 1⟩, ⟨2, 2⟩⟩)
        indentation := leadingWs (lineAt ["abc", "defg", "hij"] (Sel.start ⟨⟨0, 1⟩, ⟨2, 2⟩⟩).line)
        definitionLine := (Sel.start ⟨⟨0, 1⟩, ⟨2, 2⟩⟩).line }) ∧
    extractRange ["abc", "defg", "hij"] (Sel.start ⟨⟨0, 1⟩, ⟨2, 2⟩⟩) (Sel.end_ ⟨⟨0, 1⟩, ⟨2, 2⟩⟩) =
      sliceStr (getText ["abc", "defg", "hij"])
        (lineStartOff ["abc", "defg", "hij"] (Sel.start ⟨⟨0, 1⟩, ⟨2, 2⟩⟩).line +
          (Sel.start ⟨⟨0, 1⟩, ⟨2, 2⟩⟩).char)
        (lineStartOff ["abc", "defg", "hij"] (Sel.end_ ⟨⟨0, 1⟩, ⟨2, 2⟩⟩).line +
          (Sel.end_ ⟨⟨0, 1⟩, ⟨2, 2⟩⟩).char) :=
  c6_selection_mode pythonConfig ["abc", "defg", "hij"] ⟨⟨0, 1⟩, ⟨2, 2⟩⟩
    (by decide) (by decide) (by decide) (by decide) (by decide)

end AidocsWriter
